import Mathlib

/-
Verification of src/include/react/aggregators/histogram_aggregator.hpp.

The header defines a frequency counter (bucket_t), a recursive histogram
template histogram_t<Bucket> instantiated at the two shapes the header
typedefs (histogram1D_t = histogram_t<bucket_t> and
histogram2D_t = histogram_t<histogram1D_t>), an action-time updater
strategy, a histogram aggregator and a batch aggregator.  The embedding
below translates those declarations; machine integers are modelled as Int
with the 32-bit sentinel and the int64-to-int narrowing made explicit, and
the undefined behaviour of an out-of-range std::vector access is modelled
by returning none.
-/

namespace React

/-- std::numeric_limits<int>::max(), the sentinel tick appended by the
histogram constructor. -/
def int_max : Int := 2147483647

/-- bucket_t: a single frequency counter (member `size_t frequency`).  The
counter is modelled as Nat; the spec declares counter overflow a non-goal
for process-lifetime trace volumes. -/
structure bucket_t where
  frequency : Nat
deriving DecidableEq

/-- bucket_t::update(): ++frequency. -/
def bucket_t.update (b : bucket_t) : bucket_t :=
  { frequency := b.frequency + 1 }

/-- bucket_t::get(): returns the current frequency. -/
def bucket_t.get (b : bucket_t) : Nat :=
  b.frequency

/-- A rapidjson value restricted to the shapes this header produces:
numbers, strings, ordered member lists (AddMember appends, preserving
insertion order) and arrays. -/
inductive json_value where
  | num (n : Nat)
  | str (s : String)
  | obj (members : List (String × json_value))
  | arr (elems : List json_value)

/-- bucket_t::to_json: value.AddMember("frequency", frequency, allocator). -/
def bucket_t.to_json (b : bucket_t) : List (String × json_value) :=
  [("frequency", json_value.num b.frequency)]

/-- std::upper_bound(ticks.begin(), ticks.end(), m): the index of the first
element strictly greater than m, or the length when no element qualifies —
the standard library's postcondition on the ordered ranges the histogram
maintains.  On a range that is not partitioned with respect to the probe
(non-ascending ticks) the C++ call's precondition is violated and the call
is undefined behaviour, so the model's value is relied on only under the
ascending precondition. -/
def upper_bound (ticks : List Int) (m : Int) : Nat :=
  ticks.findIdx (fun t => decide (m < t))

/-- histogram_t<bucket_t>, the histogram1D_t typedef: a tick sequence plus
one bucket per interval. -/
structure histogram1D_t where
  ticks : List Int
  buckets : List bucket_t
deriving DecidableEq

/-- histogram_t::histogram_t(dimensionTicks): buckets is constructed with
dimensionTicks.size() + 1 value-initialized buckets (frequency 0), then
ticks.push_back(std::numeric_limits<int>::max()).  The constructor performs
no validation of the supplied ticks. -/
def histogram1D_t.construct (dimensionTicks : List Int) : histogram1D_t :=
  { ticks := dimensionTicks ++ [int_max],
    buckets := List.replicate (dimensionTicks.length + 1) { frequency := 0 } }

/-- histogram_t::update(measurement): position = distance to
upper_bound(ticks, measurement), then buckets[position].update().  The
vector access buckets[position] is undefined behaviour when position is out
of range, modelled as none. -/
def histogram1D_t.update (h : histogram1D_t) (measurement : Int) : Option histogram1D_t :=
  let position := upper_bound h.ticks measurement
  if hp : position < h.buckets.length then
    some { h with buckets := h.buckets.set position (h.buckets.get ⟨position, hp⟩).update }
  else
    none

/-- histogram_t::to_json for Bucket = bucket_t: for each i < ticks.size(),
AddMember("<" + to_string(ticks[i]), buckets[i].get()) — the
is_same<Bucket, bucket_t> branch emits the raw count.  For every histogram
this header constructs, buckets.size() = ticks.size(), so the loop is the
zip of the two sequences. -/
def histogram1D_t.to_json (h : histogram1D_t) : List (String × json_value) :=
  (h.ticks.zip h.buckets).map (fun p => ("<" ++ toString p.1, json_value.num p.2.get))

/-- The frequency stored at bucket index i (0 when out of range). -/
def histogram1D_t.freq (h : histogram1D_t) (i : Nat) : Nat :=
  (h.buckets.getD i { frequency := 0 }).frequency

/-- Sum of all bucket frequencies of a one-dimensional histogram. -/
def histogram1D_t.total_frequency (h : histogram1D_t) : Nat :=
  (h.buckets.map bucket_t.get).sum

/-- histogram_t<histogram1D_t>, the histogram2D_t typedef: each child
container is itself a one-dimensional histogram. -/
structure histogram2D_t where
  ticks : List Int
  buckets : List histogram1D_t
deriving DecidableEq

/-- The two-dimensional instance of the variadic constructor: every child
is built from the same inner tick sequence (Bucket(dimensionsTicks...)),
and the outer sentinel is appended. -/
def histogram2D_t.construct (dimensionTicks innerTicks : List Int) : histogram2D_t :=
  { ticks := dimensionTicks ++ [int_max],
    buckets := List.replicate (dimensionTicks.length + 1)
      (histogram1D_t.construct innerTicks) }

/-- The two-dimensional instance of histogram_t::update: locate the outer
position by upper_bound, then recurse into that child with the remaining
measurement. -/
def histogram2D_t.update (h : histogram2D_t) (m1 m2 : Int) : Option histogram2D_t :=
  let position := upper_bound h.ticks m1
  if hp : position < h.buckets.length then
    Option.map (fun c => { h with buckets := h.buckets.set position c })
      ((h.buckets.get ⟨position, hp⟩).update m2)
  else
    none

/-- histogram_t::to_json for a histogram-valued Bucket: the else branch
recursively serializes each child into a nested object. -/
def histogram2D_t.to_json (h : histogram2D_t) : List (String × json_value) :=
  (h.ticks.zip h.buckets).map (fun p => ("<" ++ toString p.1, json_value.obj p.2.to_json))

/-- Modelled from the spec: a trace node of the external call tree.  The
call-tree headers are not under src/; §6 requires that the trace expose,
for any node, a start time and a stop time and an action code. -/
structure node_t where
  action_code : Int
  start_time : Int
  stop_time : Int
deriving DecidableEq

/-- Modelled from the spec: the external trace (call tree), a collection of
nodes with action codes and start/stop times. -/
structure call_tree_t where
  nodes : List node_t
deriving DecidableEq

/-- Modelled from the spec: call_tree_t::get_action_codes_to_nodes_map, "a
mapping from action code to the set/sequence of trace nodes carrying that
code".  A code absent from the map yields the empty sequence, which makes
the updater's find-miss branch (skip everything) coincide with an empty
node list.  Node identifiers are fused with their records, so the map
carries the nodes themselves. -/
def call_tree_t.get_action_codes_to_nodes_map (t : call_tree_t) : Int → List node_t :=
  fun code => t.nodes.filter (fun n => n.action_code == code)

/-- In action_time_histogram_updater_t::operator() the int64_t delta is
passed to histogram_t::update's int parameter; the out-of-range conversion
reduces the value modulo 2^32 into [-2^31, 2^31) (two's-complement
narrowing). -/
def to_int32 (x : Int) : Int :=
  (x + 2147483648) % 4294967296 - 2147483648

/-- action_time_histogram_updater_t: the concrete strategy, bound to one
action code at construction. -/
structure action_time_histogram_updater_t where
  action_code : Int
deriving DecidableEq

/-- The two-argument operator(): look the bound code up in the map and, for
each node carrying it, update the histogram with the node's stop time minus
its start time (an int64_t narrowed to int at the update call).  The times
are read off the node records, which carry the values the source reads via
call_tree.get_node_stop_time / get_node_start_time. -/
def action_time_histogram_updater_t.apply_with_map
    (u : action_time_histogram_updater_t) (histogram : histogram1D_t)
    (action_codes_to_nodes_map : Int → List node_t) : Option histogram1D_t :=
  (action_codes_to_nodes_map u.action_code).foldlM
    (fun h n => h.update (to_int32 (n.stop_time - n.start_time))) histogram

/-- The one-argument operator() of the histogram_updater_t base class:
derive the action-code index from the call tree, then delegate to the
two-argument shape. -/
def action_time_histogram_updater_t.apply (u : action_time_histogram_updater_t)
    (histogram : histogram1D_t) (call_tree : call_tree_t) : Option histogram1D_t :=
  u.apply_with_map histogram call_tree.get_action_codes_to_nodes_map

/-- histogram_aggregator_t: owns one histogram and one updater (the only
concrete updater in the header is the action-time strategy). -/
structure histogram_aggregator_t where
  histogram : histogram1D_t
  histogram_updater : action_time_histogram_updater_t
deriving DecidableEq

/-- histogram_aggregator_t::aggregate(call_tree): apply the owned updater's
one-argument shape to the owned histogram. -/
def histogram_aggregator_t.aggregate (a : histogram_aggregator_t)
    (call_tree : call_tree_t) : Option histogram_aggregator_t :=
  Option.map (fun h => { a with histogram := h })
    (a.histogram_updater.apply a.histogram call_tree)

/-- histogram_aggregator_t::aggregate(call_tree, action_codes_to_nodes_map):
apply the owned updater's two-argument shape with the caller-supplied
map. -/
def histogram_aggregator_t.aggregate_with_map (a : histogram_aggregator_t)
    (action_codes_to_nodes_map : Int → List node_t) : Option histogram_aggregator_t :=
  Option.map (fun h => { a with histogram := h })
    (a.histogram_updater.apply_with_map a.histogram action_codes_to_nodes_map)

/-- batch_histogram_aggregator_t: owns an ordered sequence of histogram
aggregators. -/
structure batch_histogram_aggregator_t where
  histogram_aggregators : List histogram_aggregator_t
deriving DecidableEq

/-- batch_histogram_aggregator_t::aggregate: for each owned aggregator in
insertion order, call aggregate(call_tree,
call_tree.get_action_codes_to_nodes_map()).  The map derivation is written
inside the loop body, so it runs once per iteration; the second component
counts those derivations.  An iteration that hits undefined behaviour
aborts the run. -/
def batch_aggregate_run (aggs : List histogram_aggregator_t)
    (call_tree : call_tree_t) : Option (List histogram_aggregator_t) × Nat :=
  match aggs with
  | [] => (some [], 0)
  | a :: rest =>
    match a.aggregate_with_map call_tree.get_action_codes_to_nodes_map with
    | none => (none, 1)
    | some a2 =>
      let r := batch_aggregate_run rest call_tree
      (Option.map (fun l => a2 :: l) r.1, r.2 + 1)

/-- The batch aggregator's aggregate over its owned sequence, paired with
the number of index derivations performed. -/
def batch_histogram_aggregator_t.aggregate (b : batch_histogram_aggregator_t)
    (call_tree : call_tree_t) : Option batch_histogram_aggregator_t × Nat :=
  ((batch_aggregate_run b.histogram_aggregators call_tree).1.map
    batch_histogram_aggregator_t.mk,
   (batch_aggregate_run b.histogram_aggregators call_tree).2)

/-- A lifetime of a histogram aggregator: fold aggregate over a sequence of
traces, propagating undefined behaviour. -/
def aggregate_seq (a : histogram_aggregator_t) (traces : List call_tree_t) :
    Option histogram_aggregator_t :=
  traces.foldlM (fun acc t => acc.aggregate t) a

instance : Inhabited histogram_aggregator_t :=
  ⟨⟨⟨[], []⟩, ⟨0⟩⟩⟩

/-! Helper lemmas about the search, the bucket grid and the folds. -/

lemma upper_bound_cons (t : Int) (l : List Int) (m : Int) :
    upper_bound (t :: l) m = if m < t then 0 else upper_bound l m + 1 := by
  rw [upper_bound, List.findIdx_cons, upper_bound]
  by_cases h : m < t <;> simp [h]

/-- On a strictly ascending tick sequence the search lands at the index of
the first tick strictly greater than the measurement, which is the number
of ticks less than or equal to it. -/
lemma upper_bound_sorted_eq_countP (T : List Int) (m : Int)
    (hs : T.Pairwise (· < ·)) (hm : m < int_max) :
    upper_bound (T ++ [int_max]) m = T.countP (fun t => decide (t ≤ m)) := by
  induction T with
  | nil => simp [upper_bound_cons, hm]
  | cons t rest ih =>
    rcases List.pairwise_cons.mp hs with ⟨hlt, hrest⟩
    rw [List.cons_append, upper_bound_cons, List.countP_cons]
    by_cases h : m < t
    · have hzero : rest.countP (fun t => decide (t ≤ m)) = 0 := by
        refine List.countP_eq_zero.mpr ?_
        intro r hr
        simp only [decide_eq_true_eq]
        have := hlt r hr
        omega
      simp [h, hzero, not_le.mpr h]
    · have ht : t ≤ m := not_lt.mp h
      simp [h, ht, ih hrest]

lemma countP_le_lt_length (T : List Int) (m : Int) :
    T.countP (fun t => decide (t ≤ m)) < T.length + 1 :=
  Nat.lt_succ_of_le (List.countP_le_length _)

lemma get_eq_getD {α : Type} (l : List α) (i : Nat) (h : i < l.length) (d : α) :
    l.get ⟨i, h⟩ = l.getD i d := by
  rw [List.getD_eq_getElem?_getD, List.getElem?_eq_getElem h]
  rfl

lemma getD_set_self {α : Type} (l : List α) (i : Nat) (v d : α) (h : i < l.length) :
    (l.set i v).getD i d = v := by
  rw [List.getD_eq_getElem?_getD, List.getElem?_set_eq_of_lt v h]
  rfl

lemma getD_set_other {α : Type} (l : List α) (i j : Nat) (v d : α) (h : i ≠ j) :
    (l.set i v).getD j d = l.getD j d := by
  rw [List.getD_eq_getElem?_getD, List.getElem?_set_ne h, ← List.getD_eq_getElem?_getD]

lemma getD_replicate {α : Type} (n i : Nat) (a d : α) :
    (List.replicate n a).getD i d = if i < n then a else d := by
  rw [List.getD_eq_getElem?_getD, List.getElem?_replicate]
  split <;> simp

/-- Unfolding histogram_t::update when the search position is in range. -/
lemma update_eq_some_of_lt (h : histogram1D_t) (m : Int)
    (hp : upper_bound h.ticks m < h.buckets.length) :
    h.update m = some { h with
      buckets := h.buckets.set (upper_bound h.ticks m)
        (h.buckets.get ⟨upper_bound h.ticks m, hp⟩).update } := by
  simp only [histogram1D_t.update]
  rw [dif_pos hp]

/-- Unfolding histogram_t::update when the search position is out of range
(the undefined vector access). -/
lemma update_eq_none_of_ge (h : histogram1D_t) (m : Int)
    (hp : ¬ upper_bound h.ticks m < h.buckets.length) :
    h.update m = none := by
  simp only [histogram1D_t.update]
  rw [dif_neg hp]

/-- A successful update never lowers any bucket frequency. -/
lemma freq_le_of_update (h h2 : histogram1D_t) (m : Int)
    (hu : h.update m = some h2) (i : Nat) : h.freq i ≤ h2.freq i := by
  by_cases hp : upper_bound h.ticks m < h.buckets.length
  · rw [update_eq_some_of_lt h m hp] at hu
    obtain rfl : _ = h2 := Option.some_injective _ hu
    by_cases hi : upper_bound h.ticks m = i
    · subst hi
      simp only [histogram1D_t.freq]
      rw [getD_set_self _ _ _ _ hp, get_eq_getD _ _ hp { frequency := 0 }]
      exact Nat.le_succ _
    · simp only [histogram1D_t.freq]
      rw [getD_set_other _ _ _ _ _ hi]
  · rw [update_eq_none_of_ge h m hp] at hu
    cases hu

/-- Folding updates over a node list never lowers any bucket frequency. -/
lemma freq_le_of_foldlM (nodes : List node_t) (h h2 : histogram1D_t)
    (f : node_t → Int)
    (hu : nodes.foldlM (fun acc n => acc.update (f n)) h = some h2)
    (i : Nat) : h.freq i ≤ h2.freq i := by
  induction nodes generalizing h with
  | nil =>
    simp only [List.foldlM_nil] at hu
    obtain rfl : _ = h2 := Option.some_injective _ hu
    exact Nat.le_refl _
  | cons n rest ih =>
    rw [List.foldlM_cons] at hu
    cases hx : h.update (f n) with
    | none => rw [hx] at hu; cases hu
    | some hmid =>
      rw [hx] at hu
      simp only [Option.bind_eq_bind, Option.some_bind] at hu
      exact Nat.le_trans (freq_le_of_update h hmid (f n) hx i) (ih hmid hu)

/-- A successful aggregate call never lowers any bucket frequency. -/
lemma freq_le_of_aggregate (a a2 : histogram_aggregator_t) (t : call_tree_t)
    (hu : a.aggregate t = some a2) (i : Nat) :
    a.histogram.freq i ≤ a2.histogram.freq i := by
  simp only [histogram_aggregator_t.aggregate, action_time_histogram_updater_t.apply,
    action_time_histogram_updater_t.apply_with_map, Option.map_eq_some'] at hu
  obtain ⟨hmid, hfold, rfl⟩ := hu
  exact freq_le_of_foldlM _ _ _ _ hfold i

lemma sum_map_set {α : Type} (l : List α) (f : α → Nat) (i : Nat) (v : α)
    (h : i < l.length) :
    ((l.set i v).map f).sum + f (l.get ⟨i, h⟩) = (l.map f).sum + f v := by
  induction l generalizing i with
  | nil => cases h
  | cons a rest ih =>
    cases i with
    | zero =>
      simp only [List.set, List.map_cons, List.sum_cons, List.get]
      omega
    | succ n =>
      have hn : n < rest.length := Nat.lt_of_succ_lt_succ h
      simp only [List.set, List.map_cons, List.sum_cons, List.get]
      have := ih n hn
      omega

/-- A successful update adds exactly one to the total frequency. -/
lemma total_frequency_update (h h2 : histogram1D_t) (m : Int)
    (hu : h.update m = some h2) :
    h2.total_frequency = h.total_frequency + 1 := by
  by_cases hp : upper_bound h.ticks m < h.buckets.length
  · rw [update_eq_some_of_lt h m hp] at hu
    obtain rfl : _ = h2 := Option.some_injective _ hu
    simp only [histogram1D_t.total_frequency]
    have hsum := sum_map_set h.buckets bucket_t.get (upper_bound h.ticks m)
      (h.buckets.get ⟨upper_bound h.ticks m, hp⟩).update hp
    simp only [bucket_t.get, bucket_t.update] at hsum ⊢
    omega
  · rw [update_eq_none_of_ge h m hp] at hu
    cases hu

/-- Folding updates over a node list adds the node count to the total
frequency. -/
lemma total_frequency_foldlM (nodes : List node_t) (h h2 : histogram1D_t)
    (f : node_t → Int)
    (hu : nodes.foldlM (fun acc n => acc.update (f n)) h = some h2) :
    h2.total_frequency = h.total_frequency + nodes.length := by
  induction nodes generalizing h with
  | nil =>
    simp only [List.foldlM_nil] at hu
    obtain rfl : _ = h2 := Option.some_injective _ hu
    simp
  | cons n rest ih =>
    rw [List.foldlM_cons] at hu
    cases hx : h.update (f n) with
    | none => rw [hx] at hu; cases hu
    | some hmid =>
      rw [hx] at hu
      simp only [Option.bind_eq_bind, Option.some_bind] at hu
      have h1 := total_frequency_update h hmid (f n) hx
      have h2 := ih hmid hu
      simp only [List.length_cons]
      omega

/-- The int64-to-int narrowing is the identity on values already inside the
32-bit signed range. -/
lemma to_int32_eq_self (x : Int) (h1 : -2147483648 ≤ x) (h2 : x < 2147483648) :
    to_int32 x = x := by
  unfold to_int32
  have hmod : (x + 2147483648) % 4294967296 = x + 2147483648 :=
    Int.emod_eq_of_lt (by omega) (by omega)
  omega

lemma foldlM_ext (nodes : List node_t)
    (f g : histogram1D_t → node_t → Option histogram1D_t)
    (hfg : ∀ n ∈ nodes, ∀ hh, f hh n = g hh n) (h : histogram1D_t) :
    nodes.foldlM f h = nodes.foldlM g h := by
  induction nodes generalizing h with
  | nil => rfl
  | cons n rest ih =>
    rw [List.foldlM_cons, List.foldlM_cons, hfg n (List.mem_cons_self n rest) h]
    cases g h n with
    | none => rfl
    | some hmid =>
      simp only [Option.bind_eq_bind, Option.some_bind]
      exact ih (fun n2 hn2 hh => hfg n2 (List.mem_cons_of_mem n hn2) hh) hmid

lemma zip_label_getElem {β γ : Type} (ticks : List Int) (buckets : List β)
    (f : Int × β → γ) (i : Nat) (h1 : i < ticks.length) (h2 : i < buckets.length) :
    ((ticks.zip buckets).map f)[i]? = some (f (ticks.get ⟨i, h1⟩, buckets.get ⟨i, h2⟩)) := by
  have hz : (ticks.zip buckets)[i]? = some (ticks[i], buckets[i]) := by
    simp [List.getElem?_zip_eq_some, List.getElem?_eq_getElem, h1, h2]
  rw [List.getElem?_map, hz]
  rfl

/-! The claims. -/

/-- C1 (amended): for every histogram built from a strictly ascending tick
sequence T and every measurement m strictly below the sentinel, update
increments exactly one child container — the one at the index of the first
stored tick strictly greater than m, which equals the count of ticks of T
less than or equal to m (so a measurement equal to a tick falls into the
bucket above that boundary) — and leaves every other child unchanged; in
the two-dimensional instance the child at that index is the one the update
recurses into.  At m equal to the sentinel itself the claim fails, see the
counterexample. -/
theorem C1_update_increments_upper_bound_bucket :
    ∀ (T : List Int) (m : Int), T.Pairwise (· < ·) → m < int_max →
      (∀ h : histogram1D_t, h.ticks = T ++ [int_max] →
        h.buckets.length = T.length + 1 →
        ∃ h2, h.update m = some h2 ∧ h2.ticks = h.ticks ∧
          upper_bound h.ticks m = T.countP (fun t => decide (t ≤ m)) ∧
          h2.freq (T.countP (fun t => decide (t ≤ m))) =
            h.freq (T.countP (fun t => decide (t ≤ m))) + 1 ∧
          ∀ j, j ≠ T.countP (fun t => decide (t ≤ m)) → h2.freq j = h.freq j) ∧
      (∀ (g : histogram2D_t) (m2 : Int), g.ticks = T ++ [int_max] →
        g.buckets.length = T.length + 1 →
        g.update m m2 = Option.map
          (fun c => { g with
            buckets := g.buckets.set (T.countP (fun t => decide (t ≤ m))) c })
          ((g.buckets.getD (T.countP (fun t => decide (t ≤ m)))
            (histogram1D_t.construct [])).update m2)) := by
  intro T m hs hm
  have hcount := upper_bound_sorted_eq_countP T m hs hm
  constructor
  · intro h hticks hlen
    have hub : upper_bound h.ticks m = T.countP (fun t => decide (t ≤ m)) := by
      rw [hticks]; exact hcount
    have hlt : upper_bound h.ticks m < h.buckets.length := by
      rw [hub, hlen]; exact countP_le_lt_length T m
    refine ⟨_, update_eq_some_of_lt h m hlt, rfl, hub, ?_, ?_⟩
    · simp only [histogram1D_t.freq]
      rw [← hub, getD_set_self _ _ _ _ hlt, get_eq_getD _ _ hlt { frequency := 0 }]
      rfl
    · intro j hj
      rw [← hub] at hj
      simp only [histogram1D_t.freq]
      rw [getD_set_other _ _ _ _ _ (fun e => hj e.symm)]
  · intro g m2 hticks hlen
    have hub : upper_bound g.ticks m = T.countP (fun t => decide (t ≤ m)) := by
      rw [hticks]; exact hcount
    have hlt : upper_bound g.ticks m < g.buckets.length := by
      rw [hub, hlen]; exact countP_le_lt_length T m
    simp only [histogram2D_t.update]
    rw [dif_pos hlt, get_eq_getD _ _ hlt (histogram1D_t.construct []), hub]

/-- C1 witness: ticks [10, 20] and the boundary measurement 10 land in the
middle bucket (index 1, the count of ticks less than or equal to 10), and
the other two buckets are untouched. -/
theorem C1_witness :
    ∃ h2, (histogram1D_t.construct [10, 20]).update 10 = some h2 ∧
      h2.freq 1 = (histogram1D_t.construct [10, 20]).freq 1 + 1 ∧
      h2.freq 0 = (histogram1D_t.construct [10, 20]).freq 0 ∧
      h2.freq 2 = (histogram1D_t.construct [10, 20]).freq 2 := by
  obtain ⟨h2, hu, _, _, hpos, hoth⟩ :=
    (C1_update_increments_upper_bound_bucket [10, 20] 10 (by decide) (by decide)).1
      (histogram1D_t.construct [10, 20]) rfl (by decide)
  have hc : ([10, 20] : List Int).countP (fun t => decide (t ≤ (10 : Int))) = 1 := by
    decide
  rw [hc] at hpos hoth
  exact ⟨h2, hu, hpos, hoth 0 (by decide), hoth 2 (by decide)⟩

/-- C1 counterexample: the claim quantifies over every integer measurement,
but at the sentinel value 2147483647 the search lands one past the last
bucket on the strictly ascending tick sequence [10], so no child container
is incremented — the update is the out-of-range access. -/
theorem C1_counterexample_sentinel_measurement :
    ([10] : List Int).Pairwise (· < ·) ∧
    (histogram1D_t.construct [10]).update 2147483647 = none := by
  decide

/-- C2: at the maximum representable measurement 2147483647 the boundary
search returns ticks.size() — equal to buckets.size() — because no stored
tick, the sentinel included, is strictly greater; the bucket access at that
position is out of bounds, refuting the claimed always-in-bounds guarantee
(the out-of-range vector access is modelled as none). -/
theorem C2_sentinel_measurement_out_of_bounds :
    upper_bound (histogram1D_t.construct [10]).ticks 2147483647 =
      (histogram1D_t.construct [10]).buckets.length ∧
    (histogram1D_t.construct [10]).update 2147483647 = none := by
  decide

/-- C3 counterexample: the tick sequence [5, 3] is not strictly ascending,
yet construction does not fail with a configuration error — there is no
error path, and it produces the same fully-formed histogram shape (sentinel
appended, zeroed buckets) as any accepted sequence. -/
theorem C3_counterexample_no_validation :
    ¬ ([5, 3] : List Int).Pairwise (· < ·) ∧
    histogram1D_t.construct [5, 3] = ⟨[5, 3, int_max], [⟨0⟩, ⟨0⟩, ⟨0⟩]⟩ := by
  decide

/-- C3 (amended): the constructor never validates the tick sequence: every
sequence, strictly ascending or not, is accepted and yields a histogram
with the sentinel appended and one zeroed bucket per interval, so a
non-ascending configuration is not rejected at construction time; for a
strictly ascending sequence construction succeeds likewise and every
update below the sentinel then finds an in-bounds bucket. -/
theorem C3_construction_always_succeeds :
    ∀ T : List Int,
      (histogram1D_t.construct T).ticks = T ++ [int_max] ∧
      (histogram1D_t.construct T).buckets.length = T.length + 1 ∧
      (∀ i, ((histogram1D_t.construct T).buckets.getD i ⟨0⟩).frequency = 0) ∧
      (T.Pairwise (· < ·) → ∀ m : Int, m < int_max →
        ∃ h2, (histogram1D_t.construct T).update m = some h2) := by
  intro T
  refine ⟨rfl, by simp [histogram1D_t.construct], ?_, ?_⟩
  · intro i
    simp only [histogram1D_t.construct, getD_replicate]
    split <;> rfl
  · intro hs m hm
    have hcount := upper_bound_sorted_eq_countP T m hs hm
    have hlt : upper_bound (histogram1D_t.construct T).ticks m <
        (histogram1D_t.construct T).buckets.length := by
      simp only [histogram1D_t.construct, List.length_replicate]
      rw [hcount]
      exact countP_le_lt_length T m
    exact ⟨_, update_eq_some_of_lt _ m hlt⟩

/-- C3 witness: the non-ascending sequence [5, 3] is accepted with the full
three-bucket shape, and on the strictly ascending sequence [10, 20] the
constructed histogram accepts the update at measurement 7. -/
theorem C3_witness :
    (histogram1D_t.construct [5, 3]).buckets.length = 3 ∧
    ∃ h2, (histogram1D_t.construct [10, 20]).update 7 = some h2 :=
  ⟨(C3_construction_always_succeeds [5, 3]).2.1,
   (C3_construction_always_succeeds [10, 20]).2.2.2 (by decide) 7 (by decide)⟩

/-- C4: the trace-only updater call shape derives the action-code index
from the trace and delegates to the index-taking shape, so the one-argument
aggregate and the two-argument aggregate with an index derived from the
same trace yield the same final histogram state — in particular identical
bucket sequences. -/
theorem C4_aggregate_shapes_agree :
    ∀ (a : histogram_aggregator_t) (u : action_time_histogram_updater_t)
      (h : histogram1D_t) (tree : call_tree_t),
      u.apply h tree = u.apply_with_map h tree.get_action_codes_to_nodes_map ∧
      a.aggregate tree = a.aggregate_with_map tree.get_action_codes_to_nodes_map ∧
      Option.map (fun x => x.histogram.buckets) (a.aggregate tree) =
        Option.map (fun x => x.histogram.buckets)
          (a.aggregate_with_map tree.get_action_codes_to_nodes_map) :=
  fun _ _ _ _ => ⟨rfl, rfl, rfl⟩

/-- C5: after a batch aggregate, each contained aggregator holds exactly
the state its own one-argument aggregate would produce on the same trace —
sharing the derived index changes no result. -/
theorem C5_batch_children_match_individual_runs :
    ∀ (aggs : List histogram_aggregator_t) (tree : call_tree_t)
      (res : List histogram_aggregator_t),
      (batch_aggregate_run aggs tree).1 = some res →
      res.length = aggs.length ∧
      ∀ i, i < aggs.length →
        (aggs.getD i default).aggregate tree = some (res.getD i default) := by
  intro aggs tree
  induction aggs with
  | nil =>
    intro res hres
    simp only [batch_aggregate_run] at hres
    obtain rfl : _ = res := Option.some_injective _ hres
    exact ⟨rfl, fun i hi => absurd hi (Nat.not_lt_zero i)⟩
  | cons a rest ih =>
    intro res hres
    simp only [batch_aggregate_run] at hres
    cases ha : a.aggregate_with_map tree.get_action_codes_to_nodes_map with
    | none => rw [ha] at hres; cases hres
    | some a2 =>
      rw [ha] at hres
      simp only [Option.map_eq_some'] at hres
      obtain ⟨l, hl, rfl⟩ := hres
      obtain ⟨hlen, hall⟩ := ih l hl
      refine ⟨by simp [hlen], ?_⟩
      intro i hi
      cases i with
      | zero =>
        simp only [List.getD_cons_zero]
        exact ha
      | succ n =>
        simp only [List.getD_cons_succ]
        exact hall n (Nat.lt_of_succ_lt_succ hi)

/-- C5 witness: a batch holding one aggregator (ticks [10], action code 5)
run on a one-node trace leaves the child in exactly the state its own
aggregate call produces. -/
theorem C5_witness :
    (⟨histogram1D_t.construct [10], ⟨5⟩⟩ : histogram_aggregator_t).aggregate
        ⟨[⟨5, 0, 3⟩]⟩ =
      some (([⟨⟨[10, int_max], [⟨1⟩, ⟨0⟩]⟩, ⟨5⟩⟩] :
        List histogram_aggregator_t).getD 0 default) := by
  have h := C5_batch_children_match_individual_runs
    [⟨histogram1D_t.construct [10], ⟨5⟩⟩] ⟨[⟨5, 0, 3⟩]⟩
    [⟨⟨[10, int_max], [⟨1⟩, ⟨0⟩]⟩, ⟨5⟩⟩] (by decide)
  exact h.2 0 (by decide)

/-- C6 (amended): the batch aggregate drives every owned aggregator in
insertion order through the index-taking aggregate, but it derives the
action-code-to-node index inside the loop body — once per owned aggregator
reached, not once per call; with a single owned aggregator the derivation
happens exactly once. -/
theorem C6_index_derived_once_per_child :
    ∀ (aggs : List histogram_aggregator_t) (tree : call_tree_t),
      (batch_aggregate_run aggs tree).1 =
        aggs.mapM (fun a => a.aggregate_with_map tree.get_action_codes_to_nodes_map) ∧
      ((batch_aggregate_run aggs tree).1.isSome = true →
        (batch_aggregate_run aggs tree).2 = aggs.length) := by
  intro aggs tree
  induction aggs with
  | nil => exact ⟨rfl, fun _ => rfl⟩
  | cons a rest ih =>
    obtain ⟨ih1, ih2⟩ := ih
    cases ha : a.aggregate_with_map tree.get_action_codes_to_nodes_map with
    | none =>
      constructor
      · rw [List.mapM_cons]
        simp only [batch_aggregate_run, ha]
        rfl
      · intro hsome
        simp [batch_aggregate_run, ha] at hsome
    | some a2 =>
      constructor
      · simp only [batch_aggregate_run, ha, List.mapM_cons, ih1]
        cases rest.mapM
            (fun a => a.aggregate_with_map tree.get_action_codes_to_nodes_map) with
        | none => rfl
        | some l => rfl
      · intro hsome
        simp only [batch_aggregate_run, ha, Option.isSome_map'] at hsome
        simp only [batch_aggregate_run, ha, List.length_cons]
        rw [ih2 hsome]

/-- C6 witness: with a single owned aggregator the batch derives the index
exactly once, which is the list length. -/
theorem C6_witness :
    (batch_aggregate_run [⟨histogram1D_t.construct [20], ⟨7⟩⟩] ⟨[]⟩).2 = 1 :=
  (C6_index_derived_once_per_child [⟨histogram1D_t.construct [20], ⟨7⟩⟩] ⟨[]⟩).2
    (by decide)

/-- C6 counterexample: a batch holding two aggregators performs the index
derivation twice on one successful aggregate call, not exactly once as
claimed. -/
theorem C6_counterexample_two_children :
    ((batch_aggregate_run
      [⟨histogram1D_t.construct [10], ⟨5⟩⟩, ⟨histogram1D_t.construct [10], ⟨5⟩⟩]
      ⟨[]⟩).1).isSome = true ∧
    (batch_aggregate_run
      [⟨histogram1D_t.construct [10], ⟨5⟩⟩, ⟨histogram1D_t.construct [10], ⟨5⟩⟩]
      ⟨[]⟩).2 = 2 ∧
    (2 : Nat) ≠ 1 := by
  decide

/-- C7: over any sequence of aggregate calls that completes, every bucket
frequency of the owned histogram is non-decreasing; no aggregation
operation resets or lowers a frequency. -/
theorem C7_frequencies_non_decreasing :
    ∀ (a : histogram_aggregator_t) (traces : List call_tree_t)
      (a2 : histogram_aggregator_t),
      aggregate_seq a traces = some a2 →
      ∀ i, a.histogram.freq i ≤ a2.histogram.freq i := by
  intro a traces
  induction traces generalizing a with
  | nil =>
    intro a2 hu i
    simp only [aggregate_seq, List.foldlM_nil] at hu
    obtain rfl : _ = a2 := Option.some_injective _ hu
    exact Nat.le_refl _
  | cons t rest ih =>
    intro a2 hu i
    simp only [aggregate_seq, List.foldlM_cons] at hu
    cases hx : a.aggregate t with
    | none => rw [hx] at hu; cases hu
    | some amid =>
      rw [hx] at hu
      simp only [Option.bind_eq_bind, Option.some_bind] at hu
      exact Nat.le_trans (freq_le_of_aggregate a amid t hx i) (ih amid a2 hu i)

/-- C7 witness: one aggregate call on a one-node trace takes bucket 0 of a
fresh histogram from 0 to 1, and the fresh frequency is no larger. -/
theorem C7_witness :
    (⟨histogram1D_t.construct [10], ⟨5⟩⟩ : histogram_aggregator_t).histogram.freq 0 ≤
      (⟨⟨[10, int_max], [⟨1⟩, ⟨0⟩]⟩, ⟨5⟩⟩ : histogram_aggregator_t).histogram.freq 0 :=
  C7_frequencies_non_decreasing ⟨histogram1D_t.construct [10], ⟨5⟩⟩ [⟨[⟨5, 0, 3⟩]⟩]
    ⟨⟨[10, int_max], [⟨1⟩, ⟨0⟩]⟩, ⟨5⟩⟩ (by decide) 0

/-- C8 (amended): when the bound action code matches no trace node,
aggregate raises no error and returns the aggregator unchanged; on any
completed call the total frequency grows by exactly the number of
qualifying nodes (one update per node); and each such update carries the
node's stop time minus its start time narrowed to the 32-bit int range —
equal to the plain difference whenever that difference is representable. -/
theorem C8_no_match_no_effect_one_update_per_node :
    ∀ (a : histogram_aggregator_t) (tree : call_tree_t),
      (tree.get_action_codes_to_nodes_map a.histogram_updater.action_code = [] →
        a.aggregate tree = some a) ∧
      (∀ a2, a.aggregate tree = some a2 →
        a2.histogram.total_frequency = a.histogram.total_frequency +
          (tree.get_action_codes_to_nodes_map a.histogram_updater.action_code).length) ∧
      ((∀ n ∈ tree.get_action_codes_to_nodes_map a.histogram_updater.action_code,
          -2147483648 ≤ n.stop_time - n.start_time ∧
            n.stop_time - n.start_time < 2147483648) →
        a.aggregate tree = Option.map (fun h => { a with histogram := h })
          ((tree.get_action_codes_to_nodes_map a.histogram_updater.action_code).foldlM
            (fun h n => h.update (n.stop_time - n.start_time)) a.histogram)) := by
  intro a tree
  refine ⟨?_, ?_, ?_⟩
  · intro hmap
    simp only [histogram_aggregator_t.aggregate, action_time_histogram_updater_t.apply,
      action_time_histogram_updater_t.apply_with_map, hmap, List.foldlM_nil]
    rfl
  · intro a2 hu
    simp only [histogram_aggregator_t.aggregate, action_time_histogram_updater_t.apply,
      action_time_histogram_updater_t.apply_with_map, Option.map_eq_some'] at hu
    obtain ⟨hmid, hfold, rfl⟩ := hu
    exact total_frequency_foldlM _ a.histogram hmid
      (fun n => to_int32 (n.stop_time - n.start_time)) hfold
  · intro hrange
    simp only [histogram_aggregator_t.aggregate, action_time_histogram_updater_t.apply,
      action_time_histogram_updater_t.apply_with_map]
    congr 1
    apply foldlM_ext
    intro n hn hh
    rw [to_int32_eq_self _ (hrange n hn).1 (hrange n hn).2]

/-- C8 witness: a trace whose single node carries code 9 leaves an
aggregator bound to code 5 untouched and raises no error. -/
theorem C8_witness :
    (⟨histogram1D_t.construct [10], ⟨5⟩⟩ : histogram_aggregator_t).aggregate
        ⟨[⟨9, 0, 3⟩]⟩ =
      some ⟨histogram1D_t.construct [10], ⟨5⟩⟩ :=
  (C8_no_match_no_effect_one_update_per_node ⟨histogram1D_t.construct [10], ⟨5⟩⟩
    ⟨[⟨9, 0, 3⟩]⟩).1 (by decide)

/-- C8 counterexample: a qualifying node with start 0 and stop 2147483648
has elapsed duration 2^31, which does not fit in int; the updater feeds the
narrowed value -2^31 (landing in the lowest bucket), not the claimed
stop-minus-start measurement, whose update would be the out-of-range
access. -/
theorem C8_counterexample_narrowed_measurement :
    (⟨histogram1D_t.construct [0], ⟨5⟩⟩ : histogram_aggregator_t).aggregate
        ⟨[⟨5, 0, 2147483648⟩]⟩ =
      some ⟨⟨[0, int_max], [⟨1⟩, ⟨0⟩]⟩, ⟨5⟩⟩ ∧
    Option.map
      (fun h => ({ histogram := h, histogram_updater := ⟨5⟩ } : histogram_aggregator_t))
      ((histogram1D_t.construct [0]).update ((2147483648 : Int) - 0)) = none ∧
    (⟨histogram1D_t.construct [0], ⟨5⟩⟩ : histogram_aggregator_t).aggregate
        ⟨[⟨5, 0, 2147483648⟩]⟩ ≠
      Option.map
        (fun h => ({ histogram := h, histogram_updater := ⟨5⟩ } : histogram_aggregator_t))
        ((histogram1D_t.construct [0]).update ((2147483648 : Int) - 0)) := by
  decide

/-- C9: serialization emits exactly one entry per tick position in tick
order; each key is "<" followed by the tick's decimal rendering, with the
last entry carrying the literal sentinel rendering "<2147483647"; each
value is the raw leaf frequency when the child is a terminal bucket and the
recursively serialized sub-histogram object otherwise; and a bucket's own
serialization is the single member "frequency" mapped to its count. -/
theorem C9_serialization_shape :
    ∀ (h : histogram1D_t) (g : histogram2D_t) (b : bucket_t) (T : List Int),
      (h.buckets.length = h.ticks.length →
        h.to_json.length = h.ticks.length ∧
        ∀ i, i < h.ticks.length →
          h.to_json[i]? = some ("<" ++ toString (h.ticks.getD i 0),
            json_value.num (h.buckets.getD i ⟨0⟩).get)) ∧
      (h.buckets.length = h.ticks.length → h.ticks = T ++ [int_max] →
        (h.to_json.map Prod.fst).getLast? = some "<2147483647") ∧
      (g.buckets.length = g.ticks.length →
        g.to_json.length = g.ticks.length ∧
        ∀ i, i < g.ticks.length →
          g.to_json[i]? = some ("<" ++ toString (g.ticks.getD i 0),
            json_value.obj ((g.buckets.getD i (histogram1D_t.construct [])).to_json))) ∧
      b.to_json = [("frequency", json_value.num b.get)] := by
  intro h g b T
  have hlen1 : ∀ hh : histogram1D_t, hh.buckets.length = hh.ticks.length →
      hh.to_json.length = hh.ticks.length := by
    intro hh he
    simp [histogram1D_t.to_json, List.length_zip, he]
  have hidx1 : ∀ hh : histogram1D_t, hh.buckets.length = hh.ticks.length →
      ∀ i, i < hh.ticks.length →
      hh.to_json[i]? = some ("<" ++ toString (hh.ticks.getD i 0),
        json_value.num (hh.buckets.getD i ⟨0⟩).get) := by
    intro hh he i hi
    have h2 : i < hh.buckets.length := by omega
    rw [histogram1D_t.to_json, zip_label_getElem hh.ticks hh.buckets _ i hi h2,
      get_eq_getD hh.ticks i hi 0, get_eq_getD hh.buckets i h2 ⟨0⟩]
  refine ⟨fun he => ⟨hlen1 h he, hidx1 h he⟩, ?_, ?_, rfl⟩
  · intro he hticks
    have hl : h.to_json.length = h.ticks.length := hlen1 h he
    have hTlen : h.ticks.length = T.length + 1 := by simp [hticks]
    have hi : T.length < h.ticks.length := by omega
    rw [List.getLast?_eq_getElem?, List.length_map, hl, hTlen, Nat.add_sub_cancel,
      List.getElem?_map, hidx1 h he T.length hi]
    have hgd : h.ticks.getD T.length 0 = int_max := by
      rw [hticks, List.getD_eq_getElem?_getD, List.getElem?_concat_length]
      rfl
    rw [hgd]
    rfl
  · intro he
    constructor
    · simp [histogram2D_t.to_json, List.length_zip, he]
    · intro i hi
      have h2 : i < g.buckets.length := by omega
      rw [histogram2D_t.to_json, zip_label_getElem g.ticks g.buckets _ i hi h2,
        get_eq_getD g.ticks i hi 0, get_eq_getD g.buckets i h2 (histogram1D_t.construct [])]

/-- C9 witness: the freshly constructed one-dimensional histogram with tick
10 serializes its last entry under the literal sentinel key. -/
theorem C9_witness :
    ((histogram1D_t.construct [10]).to_json.map Prod.fst).getLast? =
      some "<2147483647" :=
  (C9_serialization_shape (histogram1D_t.construct [10])
    (histogram2D_t.construct [10] [5]) ⟨7⟩ [10]).2.1 (by decide) rfl

/-- C10: every bucket of a freshly constructed histogram holds frequency 0
before any update, at both dimension levels: construction value-initializes
one child per tick, the sentinel position included. -/
theorem C10_fresh_histogram_all_zero :
    ∀ (T To Ti : List Int) (i j : Nat),
      ((histogram1D_t.construct T).buckets.getD i ⟨0⟩).frequency = 0 ∧
      (((histogram2D_t.construct To Ti).buckets.getD i
        (histogram1D_t.construct [])).buckets.getD j ⟨0⟩).frequency = 0 := by
  intro T To Ti i j
  constructor
  · simp only [histogram1D_t.construct, getD_replicate]
    split <;> rfl
  · simp only [histogram2D_t.construct, getD_replicate]
    split <;> (simp only [histogram1D_t.construct, getD_replicate]; split <;> rfl)

end React
